import Mathlib

/-!
Shallow embedding of the makritup document-to-Markdown converter, covering
the heading classifier, paragraph/run extractor, table synthesizer, slide
extractor, image resolver and format dispatcher, together with theorems
settling the behavioural claims about them.

Conventions of the embedding:
* Rust strings are Lean `String`s; byte lengths, lower-casing and character
  classes are taken in their ASCII meaning (all inputs exercised by the
  claims are ASCII).
* Machine integers are `Nat`; the only fractional value in scope, the
  font size in points (`size.value as f32 / 2.0` followed by `as u32`),
  is represented by its exact half-point integer, whose truncation to
  `u32` equals `Nat` division by two.
* Raw image bytes are `List Nat`.
* Effects are made explicit: the ambient clock is an `Int` timestamp
  parameter, content sniffing by the external `infer` crate is a
  `List Nat → Option String` parameter, the global settings object is an
  explicit `Cfg` value and the filesystem is a write log threaded through
  the functions that can save images.
-/

set_option autoImplicit false

namespace Makritup

/-- Write log of the filesystem: the files created by `fs::write`,
in order, as (path, contents) pairs. -/
abbrev FS := List (String × List Nat)

/-- Content sniffing oracle: the MIME type reported by `infer::get`,
`none` when the crate cannot resolve the buffer. -/
abbrev Sniff := List Nat → Option String

/-- Process-wide settings (`config::SETTINGS`) read by the converter.
`aiName` abstracts the outcome of `ai_generate_name` (which internally
falls back to a timestamp name and never fails), used only when
`is_ai_enpower` is set. -/
structure Cfg where
  image_path : String
  output_path : Option String
  is_ai_enpower : Bool
  aiName : List Nat → String → String

/-- Whether the first list starts with the second. -/
def listStartsWith : List Char → List Char → Bool
  | _, [] => true
  | [], _ :: _ => false
  | a :: hs, b :: ns => a = b && listStartsWith hs ns

/-- Whether the second list occurs contiguously inside the first. -/
def listContainsSub : List Char → List Char → Bool
  | [], needle => needle.isEmpty
  | h :: t, needle => listStartsWith (h :: t) needle || listContainsSub t needle

/-- ASCII lower-casing of one character (the style names and texts the
claims range over are ASCII, where Rust `to_lowercase` agrees). -/
def charLower (c : Char) : Char :=
  if 65 ≤ c.toNat ∧ c.toNat ≤ 90 then Char.ofNat (c.toNat + 32) else c

/-- Rust `str::to_lowercase` (ASCII fragment). -/
def strLower (s : String) : String :=
  String.mk (s.toList.map charLower)

/-- Rust `str::starts_with`. -/
def strStartsWith (s p : String) : Bool :=
  listStartsWith s.toList p.toList

/-- Rust `str::ends_with` (suffix test via reversal). -/
def strEndsWith (s p : String) : Bool :=
  listStartsWith s.toList.reverse p.toList.reverse

/-- The characters of a string with leading and trailing whitespace
removed, Rust `str::trim` (ASCII whitespace fragment). -/
def trimChars (l : List Char) : List Char :=
  ((l.dropWhile Char.isWhitespace).reverse.dropWhile Char.isWhitespace).reverse

/-- Rust `str::trim`. -/
def strTrim (s : String) : String :=
  String.mk (trimChars s.toList)

/-- Rust `str::len`: byte length, equal to the character count on the ASCII
inputs in scope. -/
def strLen (s : String) : Nat :=
  s.toList.length

/-- Rust `str::contains(char)`. -/
def strContainsChar (s : String) (c : Char) : Bool :=
  s.toList.contains c

/-- Rust `str::chars().any(p)`. -/
def strAny (s : String) (p : Char → Bool) : Bool :=
  s.toList.any p

/-- Parse a digit string exactly as Rust `str::parse::<usize>`: the empty
string fails, otherwise the decimal value. -/
def parseNatDigits : List Char → Option Nat
  | [] => none
  | ds => some (ds.foldl (fun acc c => acc * 10 + (c.toNat - '0'.toNat)) 0)

/-- The decimal digits occurring in a string, in order
(`chars().filter(|c| c.is_ascii_digit())`). -/
def digitChars (s : String) : List Char :=
  s.toList.filter (fun c => c.isDigit)

/-- Substring containment, Rust `str::contains(&str)`. -/
def strContainsSub (hay needle : String) : Bool :=
  listContainsSub hay.toList needle.toList

/-- Rust `"#".repeat(n)`. -/
def repeatHash (n : Nat) : String :=
  String.mk (List.replicate n '#')

/-- Function `check_style_for_heading` from src/generator/docx2md.rs: decides from an
explicit style identifier whether a paragraph is a heading and at which
level. -/
def check_style_for_heading (style_name : String) : Option (Bool × Nat) :=
  if strStartsWith (strLower style_name) "heading"
      || strStartsWith (strLower style_name) "title" then
    some (true, (parseNatDigits (digitChars style_name)).getD 1)
  else if strLower style_name = "title" then
    some (true, 1)
  else if strContainsSub (strLower style_name) "subtitle" then
    some (true, 2)
  else if strContainsSub (strLower style_name) "header" then
    some (true, (parseNatDigits (digitChars style_name)).getD 3)
  else
    none

/-- The trailing bold-text block of `determine_heading_status`
(src/generator/docx2md.rs): short bold lines without terminal punctuation
become headings levelled by length. -/
def bold_heuristic (has_bold : Bool) (content : String) : Bool × Nat :=
  if has_bold && decide (0 < strLen (strTrim content)) &&
      decide (strLen (strTrim content) < 80) &&
      !(strEndsWith (strTrim content) ".") &&
      !(strEndsWith (strTrim content) "!") &&
      !(strEndsWith (strTrim content) "?") &&
      !(strContainsChar (strTrim content) '\n') &&
      strAny (strTrim content) (fun c => c.isAlpha) then
    if strLen (strTrim content) < 30 then (true, 2)
    else if strLen (strTrim content) < 50 then (true, 3)
    else (true, 4)
  else
    (false, 1)

/-- Function `determine_heading_status` from src/generator/docx2md.rs. `font_size`
carries the run's size in half-points; the source stores
`size.value as f32 / 2.0` and later truncates with `as u32`, which for
half-point integers below 2^25 is exactly `hp / 2`. The size branch falls
through to the bold-text block when its short-line check fails, exactly as
in the source. -/
def determine_heading_status (style_is_heading : Bool) (style_level : Nat)
    (has_bold : Bool) (font_size : Option Nat) (content : String) : Bool × Nat :=
  if style_is_heading then
    (true, style_level)
  else
    match font_size with
    | some hp =>
      if hp / 2 ≥ 12 then
        if strLen (strTrim content) < 100 && !(strEndsWith (strTrim content) ".") then
          (true,
            if hp / 2 ≥ 18 then 1 else if hp / 2 ≥ 16 then 2
            else if hp / 2 ≥ 14 then 3 else if hp / 2 ≥ 13 then 4 else 5)
        else
          bold_heuristic has_bold content
      else
        (false, 1)
    | none => bold_heuristic has_bold content

/-- Follows the spec's words for §4.2 step 2 (refinement comparison):
when a font size is present, classification is decided by the size signal
alone — fixed thresholds ≥18pt→1, ≥16pt→2, ≥14pt→3, ≥13pt→4, ≥12pt→5,
else not a heading — granted only when the trimmed text is under 100
characters and does not end in a period. Point thresholds are stated over
the exact half-point value (`hp ≥ 36` is `pt ≥ 18`, and so on). -/
def sizeSignalSpec (hp : Nat) (content : String) : Bool × Nat :=
  if hp ≥ 24 then
    if strLen (strTrim content) < 100 && !(strEndsWith (strTrim content) ".") then
      (true,
        if hp ≥ 36 then 1 else if hp ≥ 32 then 2 else if hp ≥ 28 then 3
        else if hp ≥ 26 then 4 else 5)
    else
      (false, 1)
  else
    (false, 1)

lemma bold_heuristic_of_not_short (b : Bool) (content : String)
    (h : ¬(strLen (strTrim content) < 100
      && !(strEndsWith (strTrim content) ".")) = true) :
    bold_heuristic b content = (false, 1) := by
  by_cases he : strEndsWith (strTrim content) "." = true
  · simp [bold_heuristic, he]
  · have hlen : ¬ strLen (strTrim content) < 100 := by
      intro hc
      exact h (by simp [hc, he])
    have h80 : ¬ strLen (strTrim content) < 80 := by omega
    simp [bold_heuristic, h80]

/-- C1: explicit style metadata always outranks the font-size signal and the
bold-text heuristic: whenever the explicit style name indicates a
heading/title/subtitle/header style (i.e. `check_style_for_heading`
recognises it), `determine_heading_status` returns heading status with the
style-derived level, for every combination of boldness, font size and text;
in particular the style name "Heading2" is recognised at level 2. -/
theorem style_outranks_size_and_bold :
    (∀ (style : String) (r : Bool × Nat) (has_bold : Bool)
        (font_size : Option Nat) (text : String),
      check_style_for_heading style = some r →
      r.1 = true ∧
        determine_heading_status r.1 r.2 has_bold font_size text = (true, r.2))
    ∧ check_style_for_heading "Heading2" = some (true, 2) := by
  constructor
  · intro style r has_bold font_size text h
    have h1 : r.1 = true := by
      unfold check_style_for_heading at h
      split at h
      · cases h; rfl
      · split at h
        · cases h; rfl
        · split at h
          · cases h; rfl
          · split at h
            · cases h; rfl
            · cases h
    refine ⟨h1, ?_⟩
    simp [determine_heading_status, h1]
  · decide

/-- Witness for C1 at a concrete input: a paragraph with explicit style
"Heading2", bold runs and a 20pt (40 half-point) font size classifies as a
heading at level 2. -/
theorem style_outranks_size_and_bold_witness :
    check_style_for_heading "Heading2" = some (true, 2) ∧
    determine_heading_status true 2 true (some 40) "Quarterly results"
      = (true, 2) := by
  have h := style_outranks_size_and_bold.1 "Heading2" (true, 2) true (some 40)
    "Quarterly results" (by decide)
  exact ⟨by decide, h.2⟩

/-- C3: with no explicit heading style and a font size present, the result
of `determine_heading_status` coincides with the spec's size-only signal
(thresholds ≥18pt→1, ≥16pt→2, ≥14pt→3, ≥13pt→4, ≥12pt→5, gated on trimmed
text under 100 characters not ending in a period) for every boldness value,
so the bold-text heuristic never influences the outcome when a size is
present; and with no font size the result is exactly the bold-text
heuristic. -/
theorem size_signal_decides_when_present :
    (∀ (style_level : Nat) (has_bold : Bool) (hp : Nat) (content : String),
      determine_heading_status false style_level has_bold (some hp) content
        = sizeSignalSpec hp content)
    ∧ (∀ (style_level : Nat) (has_bold : Bool) (content : String),
      determine_heading_status false style_level has_bold none content
        = bold_heuristic has_bold content) := by
  constructor
  · intro style_level has_bold hp content
    have e12 : (12 ≤ hp / 2) = (24 ≤ hp) := by simp only [eq_iff_iff]; omega
    have e18 : (18 ≤ hp / 2) = (36 ≤ hp) := by simp only [eq_iff_iff]; omega
    have e16 : (16 ≤ hp / 2) = (32 ≤ hp) := by simp only [eq_iff_iff]; omega
    have e14 : (14 ≤ hp / 2) = (28 ≤ hp) := by simp only [eq_iff_iff]; omega
    have e13 : (13 ≤ hp / 2) = (26 ≤ hp) := by simp only [eq_iff_iff]; omega
    simp only [determine_heading_status, sizeSignalSpec, ge_iff_le,
      e12, e18, e16, e14, e13, Bool.false_eq_true, if_false]
    split
    · split
      · rfl
      · exact bold_heuristic_of_not_short has_bold content (by assumption)
    · rfl
  · intro style_level has_bold content
    rfl

/-! ## Image resolver (src/generator/image2md.rs) -/

/-- The standard base64 alphabet. -/
def b64Alphabet : List Char :=
  "ABCDEFGHIJKLMNOPQRSTUVWXYZabcdefghijklmnopqrstuvwxyz0123456789+/".toList

/-- Character for a 6-bit group. -/
def b64Char (n : Nat) : Char :=
  b64Alphabet.getD n 'A'

/-- RFC 4648 standard base64 with padding
(`base64::engine::general_purpose::STANDARD`). -/
def base64Encode : List Nat → String
  | [] => ""
  | [a] =>
    String.mk [b64Char (a / 4), b64Char (a % 4 * 16)] ++ "=="
  | [a, b] =>
    String.mk [b64Char (a / 4), b64Char (a % 4 * 16 + b / 16),
      b64Char (b % 16 * 4)] ++ "="
  | a :: b :: c :: rest =>
    String.mk [b64Char (a / 4), b64Char (a % 4 * 16 + b / 16),
      b64Char (b % 16 * 4 + c / 64), b64Char (c % 64)] ++ base64Encode rest

/-- Enum `ImageProcessingMode` from src/generator/image2md.rs. -/
inductive ImageProcessingMode where
  | base64
  | saveToFile

/-- The (MIME type, extension) pair derived from `infer::get` in
`run_with_mode`; unresolvable content defaults to `image/jpeg`/`jpg`, and
so does any non-image MIME for the extension. -/
def sniffMime (sniff : Sniff) (bytes : List Nat) : String × String :=
  match sniff bytes with
  | some m =>
    (m, if m = "image/jpeg" then "jpg" else if m = "image/png" then "png"
        else if m = "image/gif" then "gif" else if m = "image/webp" then "webp"
        else "jpg")
  | none => ("image/jpeg", "jpg")

/-- The generated image name: AI naming when enabled (its fallback is folded
into `Cfg.aiName`, which never fails), otherwise the timestamp-based
`pic-<unix-seconds>` name; `t` stands for `chrono::Utc::now().timestamp()`. -/
def imageName (cfg : Cfg) (t : Int) (bytes : List Nat) (mime : String) : String :=
  if cfg.is_ai_enpower then cfg.aiName bytes mime else "pic-" ++ toString t

/-- Rust `Path::join` of a directory and a file name (Unix separators). -/
def pathJoin (dir file : String) : String :=
  if strEndsWith dir "/" then dir ++ file else dir ++ "/" ++ file

/-- Function `image2md::run_with_mode`: empty input is rejected, then the image is
either embedded as a base64 data-URI or written below `cfg.image_path`
(the write is recorded in the `FS` log; `create_dir_all` and `fs::write`
are modelled as succeeding). -/
def run_with_mode (cfg : Cfg) (sniff : Sniff) (t : Int) (file_stream : List Nat)
    (mode : ImageProcessingMode) (fs : FS) : Except String String × FS :=
  if file_stream.isEmpty then
    (.error "Input stream is empty", fs)
  else
    match mode with
    | .base64 =>
      (.ok ("![" ++ imageName cfg t file_stream (sniffMime sniff file_stream).1
        ++ "](data:" ++ (sniffMime sniff file_stream).1 ++ ";base64,"
        ++ base64Encode file_stream ++ ")"), fs)
    | .saveToFile =>
      (.ok ("![" ++ imageName cfg t file_stream (sniffMime sniff file_stream).1
        ++ "](" ++ imageName cfg t file_stream (sniffMime sniff file_stream).1
        ++ "." ++ (sniffMime sniff file_stream).2 ++ ")"),
       fs ++ [(pathJoin cfg.image_path
          (imageName cfg t file_stream (sniffMime sniff file_stream).1
            ++ "." ++ (sniffMime sniff file_stream).2), file_stream)])

/-- Function `image2md::run`: picks the mode from the configuration (empty
`image_path` means base64 inline) and defers to `run_with_mode`. -/
def image2md_run (cfg : Cfg) (sniff : Sniff) (t : Int) (file_stream : List Nat)
    (fs : FS) : Except String String × FS :=
  run_with_mode cfg sniff t file_stream
    (if cfg.image_path = "" then .base64 else .saveToFile) fs

/-- Fixture: settings with no image directory and AI naming disabled. -/
def cfgB64 : Cfg := ⟨"", none, false, fun _ _ => "unused-ai-name"⟩

/-- Fixture: a sniffing oracle that resolves nothing. -/
def sniffNone : Sniff := fun _ => none

/-- C8: in base64 mode with timestamp naming, non-empty input bytes resolve
to exactly `![pic-<t>](data:<mime>;base64,<payload>)`, where `<payload>` is
the standard base64 encoding of the bytes and `<mime>` is the sniffed MIME
type, `image/jpeg` when sniffing cannot resolve the content; no file is
written. -/
theorem base64_mode_output_shape (cfg : Cfg) (sniff : Sniff) (t : Int)
    (bytes : List Nat) (fs : FS) (hne : bytes ≠ [])
    (hai : cfg.is_ai_enpower = false) :
    run_with_mode cfg sniff t bytes .base64 fs
      = (.ok ("![pic-" ++ toString t ++ "](data:"
          ++ ((sniff bytes).getD "image/jpeg") ++ ";base64,"
          ++ base64Encode bytes ++ ")"), fs) := by
  have hb : bytes.isEmpty = false := by
    cases bytes with
    | nil => exact absurd rfl hne
    | cons a l => rfl
  unfold run_with_mode
  rw [hb]
  simp only [Bool.false_eq_true, if_false]
  unfold imageName
  rw [hai]
  simp only [Bool.false_eq_true, if_false]
  cases hs : sniff bytes with
  | none =>
    simp only [sniffMime, hs]
    simp only [← String.append_assoc]
    rfl
  | some m =>
    simp only [sniffMime, hs]
    simp only [← String.append_assoc]
    rfl

/-- Witness for C8: three concrete bytes, unresolvable by sniffing, at
timestamp 0. -/
theorem base64_mode_output_shape_witness :
    run_with_mode cfgB64 sniffNone 0 [1, 2, 3] .base64 []
      = (.ok "![pic-0](data:image/jpeg;base64,AQID)", []) := by
  have h := base64_mode_output_shape cfgB64 sniffNone 0 [1, 2, 3] []
    (by decide) rfl
  rw [h]
  rfl

/-- C10: in every processing mode, the image resolver rejects an empty byte
buffer with the `Input stream is empty` error, and the filesystem log is
unchanged — no file is written and no Markdown image is produced. -/
theorem empty_image_input_rejected (cfg : Cfg) (sniff : Sniff) (t : Int)
    (mode : ImageProcessingMode) (fs : FS) :
    run_with_mode cfg sniff t [] mode fs
      = (.error "Input stream is empty", fs) := rfl

/-! ## Word-processing path (src/generator/docx2md.rs, non-pandoc)

The ZIP container and the docx tree parser are external collaborators:
`run_with_images` receives their outputs — the media table (`word/media/`
entries as a list in the iteration order of the Rust `HashMap`, which is
arbitrary and per-instance) and the parsed body content list. -/

/-- Media table: archive path and raw bytes per image, listed in hash-map
iteration order. -/
abbrev Images := List (String × List Nat)

/-- Formatting of one run (`run.property`): the source checks
`bold.is_some()` (not the flag's value), so the bold marker stays an
`Option`; `size` is the explicit size in half-points. -/
structure RunProps where
  bold : Option Bool
  size : Option Nat

/-- Variants of `RunContent`: text, a drawing (embedded image), or anything else
(ignored by the extractor). -/
inductive DocRunContent where
  | text (s : String)
  | drawing
  | other

/-- A text run. -/
structure DocRun where
  property : Option RunProps
  content : List DocRunContent

/-- Variants of `ParagraphContent`: a run or anything else. -/
inductive DocParaContent where
  | run (r : DocRun)
  | other

/-- Paragraph properties: the explicit style identifier. -/
structure ParaProps where
  style_id : Option String

/-- A paragraph of the document body. -/
structure DocParagraph where
  property : Option ParaProps
  content : List DocParaContent

/-- A table cell; `TableCellContent` has a single `Paragraph` variant. -/
structure DocTableCell where
  content : List DocParagraph

/-- Variants of `TableRowContent`: a proper cell or anything else. -/
inductive DocTableRowContent where
  | tableCell (tc : DocTableCell)
  | other

/-- A table row. -/
structure DocTableRow where
  cells : List DocTableRowContent

/-- A table. -/
structure DocTable where
  rows : List DocTableRow

/-- Variants of `BodyContent`: paragraph, table, or anything else. -/
inductive BodyContent where
  | paragraph (p : DocParagraph)
  | table (t : DocTable)
  | other

/-- The fixed extension allow-list used when associating an embedded image:
png/jpg/jpeg/gif/webp. -/
def allowedImageEntry (e : String × List Nat) : Bool :=
  strEndsWith e.1 ".png" || strEndsWith e.1 ".jpg" || strEndsWith e.1 ".jpeg"
    || strEndsWith e.1 ".gif" || strEndsWith e.1 ".webp"

/-- Rust `Path::parent` as a string operation (Unix separators): everything
before the last `/`, empty when there is none. -/
def parentDir (p : String) : String :=
  String.mk ((p.toList.reverse.dropWhile (fun c => c ≠ '/')).drop 1).reverse

/-- Replace every occurrence of a (non-empty) pattern, Rust
`str::replace`. -/
def listReplaceSub (l pat rep : List Char) : List Char :=
  match l with
  | [] => []
  | h :: t =>
    if _hc : (listStartsWith (h :: t) pat && !pat.isEmpty) = true then
      rep ++ listReplaceSub ((h :: t).drop pat.length) pat rep
    else
      h :: listReplaceSub t pat rep
  termination_by l.length
  decreasing_by
    · rcases pat with _ | ⟨x, xs⟩
      · simp at _hc
      · simp only [List.length_drop, List.length_cons]
        omega
    · simp only [List.length_cons]
      omega

/-- Rust `str::replace`. -/
def strReplace (s pat rep : String) : String :=
  String.mk (listReplaceSub s.toList pat.toList rep.toList)

/-- Function `adjust_image_path_in_markdown`: when an output path is configured,
rewrite absolute image directory references to ones relative to the output
file's directory. `strip_prefix` is modelled as a string prefix test. The
source wraps the result in `Ok`; it never fails. -/
def adjust_image_path_in_markdown (cfg : Cfg) (markdown : String) : String :=
  match cfg.output_path with
  | some op =>
    if op ≠ "" then
      if strStartsWith cfg.image_path (parentDir op) then
        strReplace markdown ("](" ++ cfg.image_path)
          ("](./" ++ String.mk (cfg.image_path.toList.drop (parentDir op).toList.length))
      else markdown
    else markdown
  | none => markdown

/-- Function `process_drawing_images_with_mode`: pick the processing mode from the
configuration, then resolve the first media entry matching the extension
allow-list (in hash-map iteration order — true embed-id cross-referencing
is not performed) and frame its Markdown in blank lines. -/
def process_drawing_images_with_mode (cfg : Cfg) (sniff : Sniff) (t : Int)
    (images : Images) (fs : FS) : Except String (Option String) × FS :=
  match images.find? allowedImageEntry with
  | none => (.ok none, fs)
  | some e =>
    match run_with_mode cfg sniff t e.2
        (if cfg.image_path = "" then .base64 else .saveToFile) fs with
    | (.error msg, fs') => (.error msg, fs')
    | (.ok md, fs') =>
      (.ok (some ("\n\n"
        ++ (if cfg.image_path ≠ "" then adjust_image_path_in_markdown cfg md
            else md) ++ "\n\n")), fs')

/-- The run-content loop of `process_paragraph`: concatenates text pieces
and splices resolved drawing images into the accumulated paragraph text. -/
def scan_run_contents (cfg : Cfg) (sniff : Sniff) (t : Int) (images : Images) :
    List DocRunContent → String → FS → Except String (String × FS)
  | [], txt, fs => .ok (txt, fs)
  | .text s :: rest, txt, fs => scan_run_contents cfg sniff t images rest (txt ++ s) fs
  | .drawing :: rest, txt, fs =>
    match process_drawing_images_with_mode cfg sniff t images fs with
    | (.error e, _) => .error e
    | (.ok none, fs') => scan_run_contents cfg sniff t images rest txt fs'
    | (.ok (some md), fs') => scan_run_contents cfg sniff t images rest (txt ++ md) fs'
  | .other :: rest, txt, fs => scan_run_contents cfg sniff t images rest txt fs

/-- The paragraph-content loop of `process_paragraph`: accumulates the
paragraph text, `has_bold` (true when any run carries a bold marker) and
`font_size` (the last run's explicit size, in half-points). -/
def scan_para_contents (cfg : Cfg) (sniff : Sniff) (t : Int) (images : Images) :
    List DocParaContent → String × Bool × Option Nat × FS →
      Except String (String × Bool × Option Nat × FS)
  | [], st => .ok st
  | .run r :: rest, (txt, hb, fsz, fs) =>
    match scan_run_contents cfg sniff t images r.content txt fs with
    | .error e => .error e
    | .ok (txt', fs') =>
      scan_para_contents cfg sniff t images rest (txt',
        hb || (match r.property with | some pr => pr.bold.isSome | none => false),
        (match r.property with
         | some pr => (match pr.size with | some v => some v | none => fsz)
         | none => fsz),
        fs')
  | .other :: rest, st => scan_para_contents cfg sniff t images rest st

/-- The style check at the head of `process_paragraph`: `is_heading` and
`heading_level` start as `(false, 1)` and are overwritten when the explicit
style is recognised. -/
def styleHeadingOf (p : DocParagraph) : Bool × Nat :=
  match p.property with
  | some prop =>
    match prop.style_id with
    | some sid => (check_style_for_heading sid).getD (false, 1)
    | none => (false, 1)
  | none => (false, 1)

/-- Function `process_paragraph`: scan style and runs, classify through
`determine_heading_status`, and render — a heading line gets a
`#`-prefix of length `final_level.min(6)` and the trimmed text, unless the
trimmed text is empty, in which case the raw text is returned. -/
def process_paragraph (cfg : Cfg) (sniff : Sniff) (t : Int) (images : Images)
    (p : DocParagraph) (fs : FS) : Except String (String × FS) :=
  match scan_para_contents cfg sniff t images p.content ("", false, none, fs) with
  | .error e => .error e
  | .ok (txt, hb, fsz, fs') =>
    match determine_heading_status (styleHeadingOf p).1 (styleHeadingOf p).2
        hb fsz txt with
    | (final_is_heading, final_level) =>
      if final_is_heading ∧ strTrim txt ≠ "" then
        .ok (repeatHash (Nat.min final_level 6) ++ " " ++ strTrim txt, fs')
      else
        .ok (txt, fs')

/-- Run-content text accumulation inside a table cell. -/
def runTexts : List DocRunContent → String → String
  | [], acc => acc
  | .text s :: rest, acc => runTexts rest (acc ++ s)
  | _ :: rest, acc => runTexts rest acc

/-- Paragraph-content text accumulation inside a table cell (only runs
contribute). -/
def paraTexts : List DocParaContent → String → String
  | [], acc => acc
  | .run r :: rest, acc => paraTexts rest (runTexts r.content acc)
  | _ :: rest, acc => paraTexts rest acc

/-- Per-paragraph accumulation of `extract_cell_text`: after each
paragraph, a space is appended when the text is non-empty and does not
already end in one. -/
def cellAccum : List DocParagraph → String → String
  | [], acc => acc
  | p :: ps, acc =>
    cellAccum ps
      (if paraTexts p.content acc ≠ "" ∧
          ¬ strEndsWith (paraTexts p.content acc) " " = true then
        paraTexts p.content acc ++ " "
      else paraTexts p.content acc)

/-- Function `extract_cell_text`. -/
def extract_cell_text (tc : DocTableCell) : String :=
  strTrim (cellAccum tc.content "")

/-- One row's cells rendered as ` cell |` pieces; a non-cell row entry
renders as a bare ` |`. -/
def rowCellsMd : List DocTableRowContent → String
  | [] => ""
  | .tableCell tc :: rest => " " ++ extract_cell_text tc ++ " |" ++ rowCellsMd rest
  | .other :: rest => " |" ++ rowCellsMd rest

/-- The separator row: `---|` once per first-row cell. -/
def sepCellsMd : List DocTableRowContent → String
  | [] => ""
  | _ :: rest => "---|" ++ sepCellsMd rest

/-- The data rows (all rows after the first), rendered as-is. -/
def dataRowsMd : List DocTableRow → String
  | [] => ""
  | r :: rest => "|" ++ rowCellsMd r.cells ++ "\n" ++ dataRowsMd rest

/-- Function `process_table` from src/generator/docx2md.rs: empty tables render to
the empty string; otherwise header row, separator row sized by the first
row's cell count, then the remaining rows as-is. -/
def process_table (t : DocTable) : Except String String :=
  match t.rows with
  | [] => .ok ""
  | r0 :: rest =>
    .ok ("|" ++ rowCellsMd r0.cells ++ "\n" ++ "|" ++ sepCellsMd r0.cells
      ++ "\n" ++ dataRowsMd rest)

/-- The body loop of docx `run_with_images`: paragraphs and tables are
rendered in document order, blank-trimmed pieces are dropped, non-empty
pieces are joined with a blank line. -/
def docx_body (cfg : Cfg) (sniff : Sniff) (t : Int) (images : Images) :
    List BodyContent → String → FS → Except String (String × FS)
  | [], md, fs => .ok (md, fs)
  | .paragraph p :: rest, md, fs =>
    match process_paragraph cfg sniff t images p fs with
    | .error e => .error e
    | .ok (pmd, fs') =>
      docx_body cfg sniff t images rest
        (if strTrim pmd = "" then md else md ++ pmd ++ "\n\n") fs'
  | .table tb :: rest, md, fs =>
    match process_table tb with
    | .error e => .error e
    | .ok tmd =>
      docx_body cfg sniff t images rest
        (if strTrim tmd = "" then md else md ++ tmd ++ "\n\n") fs
  | .other :: rest, md, fs => docx_body cfg sniff t images rest md fs

/-- docx `run_with_images`, after container unpacking: the output starts
from the synthetic `# Document` heading and accumulates the body. -/
def docx_run_with_images (cfg : Cfg) (sniff : Sniff) (t : Int)
    (contents : List BodyContent) (images : Images) (fs : FS) :
    Except String (String × FS) :=
  docx_body cfg sniff t images contents "# Document\n\n" fs

/-! ## Table synthesizer (format_table_as_markdown, src/generator/pptx2md.rs) -/

/-- One row's cells rendered as ` cell |` pieces (`TableData` rows are
plain string lists). -/
def fmtRowCells : List String → String
  | [] => ""
  | c :: rest => " " ++ c ++ " |" ++ fmtRowCells rest

/-- The separator row: `---|` once per first-row cell. -/
def fmtSepCells : List String → String
  | [] => ""
  | _ :: rest => "---|" ++ fmtSepCells rest

/-- The data rows, rendered as-is. -/
def fmtDataRows : List (List String) → String
  | [] => ""
  | r :: rest => "|" ++ fmtRowCells r ++ "\n" ++ fmtDataRows rest

/-- Function `format_table_as_markdown` from src/generator/pptx2md.rs: empty input
renders to the empty string; otherwise the first row becomes the header,
a `---` separator sized by the first row follows, and the remaining rows
render as-is. -/
def format_table_as_markdown (rows : List (List String)) : String :=
  match rows with
  | [] => ""
  | r0 :: rest =>
    "|" ++ fmtRowCells r0 ++ "\n" ++ "|" ++ fmtSepCells r0 ++ "\n"
      ++ fmtDataRows rest

/-- Concatenation of a list of strings (used only to state the table
shape). -/
def strJoin : List String → String
  | [] => ""
  | x :: rest => x ++ strJoin rest

lemma fmtSepCells_join (r : List String) :
    fmtSepCells r = strJoin (r.map (fun _ => "---|")) := by
  induction r with
  | nil => rfl
  | cons c rest ih => simp only [fmtSepCells, List.map, strJoin, ih]

lemma fmtDataRows_join (rs : List (List String)) :
    fmtDataRows rs = strJoin (rs.map (fun r => "|" ++ fmtRowCells r ++ "\n")) := by
  induction rs with
  | nil => rfl
  | cons r rest ih => simp only [fmtDataRows, List.map, strJoin, ih]

/-- Fixture: the docx-tree form of the table [["a","b"],["1","2"],["3","4"]]
(each cell one paragraph with one text run). -/
def docCell (s : String) : DocTableRowContent :=
  .tableCell ⟨[⟨none, [.run ⟨none, [.text s]⟩]⟩]⟩

/-- Fixture: the three-row docx table used by the round-trip check. -/
def docTableABC : DocTable :=
  ⟨[⟨[docCell "a", docCell "b"]⟩, ⟨[docCell "1", docCell "2"]⟩,
    ⟨[docCell "3", docCell "4"]⟩]⟩

/-- C4: the table synthesizer renders the first row as the header, then a
separator with `---` once per first-row cell, then every later row as-is
(no padding or truncation); the concrete rows [["a","b"],["1","2"],["3","4"]]
render exactly to `| a | b |\n|---|---|\n| 1 | 2 |\n| 3 | 4 |\n` (also via
the docx-side `process_table`), and zero rows render to the empty string,
not an error. -/
theorem table_synthesis_shape :
    (∀ (r0 : List String) (rest : List (List String)),
      format_table_as_markdown (r0 :: rest)
        = "|" ++ fmtRowCells r0 ++ "\n" ++ "|"
          ++ strJoin (r0.map (fun _ => "---|")) ++ "\n"
          ++ strJoin (rest.map (fun r => "|" ++ fmtRowCells r ++ "\n")))
    ∧ format_table_as_markdown [] = ""
    ∧ format_table_as_markdown [["a", "b"], ["1", "2"], ["3", "4"]]
        = "| a | b |\n|---|---|\n| 1 | 2 |\n| 3 | 4 |\n"
    ∧ process_table docTableABC
        = .ok "| a | b |\n|---|---|\n| 1 | 2 |\n| 3 | 4 |\n"
    ∧ process_table ⟨[]⟩ = .ok "" := by
  refine ⟨?_, rfl, by rfl, by rfl, rfl⟩
  intro r0 rest
  simp only [format_table_as_markdown]
  rw [fmtSepCells_join, fmtDataRows_join]

/-! ## C2: heading rendering invariants (corrected) -/

lemma strLen_repeatHash (n : Nat) : strLen (repeatHash n) = n := by
  simp [strLen, repeatHash]

/-- Fixture: a paragraph with explicit style `Heading0` and the plain text
`Intro`. -/
def paraHeading0 : DocParagraph :=
  ⟨some ⟨some "Heading0"⟩, [.run ⟨none, [.text "Intro"]⟩]⟩

/-- Fixture: a paragraph with explicit style `Heading2` and one bold 20pt
run reading `Results`. -/
def paraH2 : DocParagraph :=
  ⟨some ⟨some "Heading2"⟩, [.run ⟨some ⟨some true, some 40⟩, [.text "Results"]⟩]⟩

/-- Counterexample to C2 as stated: the paragraph with explicit style
`Heading0` (whose digits parse to 0) classifies as a heading at level 0 —
so `1 ≤ level` fails — and, although its trimmed text `Intro` is non-empty,
its rendered line ` Intro` carries zero `#` characters. -/
theorem heading_level_zero_counterexample :
    check_style_for_heading "Heading0" = some (true, 0)
    ∧ determine_heading_status true 0 false none "Intro" = (true, 0)
    ∧ strTrim "Intro" ≠ ""
    ∧ process_paragraph cfgB64 sniffNone 0 [] paraHeading0 [] = .ok (" Intro", [])
    ∧ ¬ 1 ≤ (determine_heading_status true 0 false none "Intro").2 := by
  refine ⟨by decide, by decide, by decide, by rfl, by decide⟩

lemma bold_heuristic_pos (hb : Bool) (txt : String) (fl : Nat)
    (h : bold_heuristic hb txt = (true, fl)) : 1 ≤ fl := by
  unfold bold_heuristic at h
  split at h
  · split at h
    · simp only [Prod.mk.injEq] at h
      omega
    · split at h <;> (simp only [Prod.mk.injEq] at h; omega)
  · simp at h

/-- C2 as amended: for a paragraph whose scan yields text `txt` and whose
final classification is a heading, the rendered line is prefixed by exactly
`min(level, 6)` `#` characters (hence never more than six) when the trimmed
text is non-empty, and a paragraph with empty trimmed text never renders as
a heading; the final level is at least 1 unless it was inherited verbatim
from the explicit style, and an explicit style can produce level 0 only
when the digits in the style name parse to 0. -/
theorem heading_render_clamp :
    (∀ (cfg : Cfg) (sniff : Sniff) (t : Int) (images : Images)
        (p : DocParagraph) (fs : FS) (txt : String) (hb : Bool)
        (fsz : Option Nat) (fs' : FS),
      scan_para_contents cfg sniff t images p.content ("", false, none, fs)
          = .ok (txt, hb, fsz, fs') →
      ∀ fh fl, determine_heading_status (styleHeadingOf p).1
          (styleHeadingOf p).2 hb fsz txt = (fh, fl) →
        (fh = true → strTrim txt ≠ "" →
          process_paragraph cfg sniff t images p fs
              = .ok (repeatHash (Nat.min fl 6) ++ " " ++ strTrim txt, fs')
            ∧ strLen (repeatHash (Nat.min fl 6)) = Nat.min fl 6
            ∧ Nat.min fl 6 ≤ 6)
        ∧ (strTrim txt = "" →
          process_paragraph cfg sniff t images p fs = .ok (txt, fs')))
    ∧ (∀ (sh : Bool) (sl : Nat) (hb : Bool) (fsz : Option Nat) (txt : String)
        (fl : Nat),
      determine_heading_status sh sl hb fsz txt = (true, fl) →
        1 ≤ fl ∨ (sh = true ∧ fl = sl))
    ∧ (∀ (sid : String) (fl : Nat),
      check_style_for_heading sid = some (true, fl) →
        1 ≤ fl ∨ parseNatDigits (digitChars sid) = some 0) := by
  refine ⟨?_, ?_, ?_⟩
  · intro cfg sniff t images p fs txt hb fsz fs' hscan fh fl hdet
    constructor
    · intro hfh htrim
      refine ⟨?_, strLen_repeatHash _, Nat.min_le_right _ _⟩
      simp only [process_paragraph, hscan, hdet]
      rw [if_pos ⟨hfh, htrim⟩]
    · intro htrim
      simp only [process_paragraph, hscan, hdet]
      rw [if_neg (fun hcon => hcon.2 htrim)]
  · intro sh sl hb fsz txt fl hdet
    cases hsh : sh with
    | true =>
      right
      rw [hsh] at hdet
      simp [determine_heading_status] at hdet
      exact ⟨rfl, hdet.symm⟩
    | false =>
      left
      rw [hsh] at hdet
      cases fsz with
      | none =>
        simp only [determine_heading_status, Bool.false_eq_true, if_false] at hdet
        exact bold_heuristic_pos hb txt fl hdet
      | some hp =>
        simp only [determine_heading_status, Bool.false_eq_true, if_false] at hdet
        split at hdet
        · split at hdet
          · simp only [Prod.mk.injEq] at hdet
            rcases hdet with ⟨-, hfl⟩
            repeat' split at hfl
            all_goals omega
          · exact bold_heuristic_pos hb txt fl hdet
        · simp at hdet
  · intro sid fl hsty
    unfold check_style_for_heading at hsty
    split at hsty
    · simp only [Option.some.injEq, Prod.mk.injEq] at hsty
      rcases hsty with ⟨-, hfl⟩
      cases hp : parseNatDigits (digitChars sid) with
      | none => left; rw [hp] at hfl; simp at hfl; omega
      | some n =>
        cases n with
        | zero => right; rfl
        | succ k => left; rw [hp] at hfl; simp at hfl; omega
    · split at hsty
      · simp only [Option.some.injEq, Prod.mk.injEq] at hsty
        left; omega
      · split at hsty
        · simp only [Option.some.injEq, Prod.mk.injEq] at hsty
          rcases hsty with ⟨-, hfl⟩
          left; omega
        · split at hsty
          · simp only [Option.some.injEq, Prod.mk.injEq] at hsty
            rcases hsty with ⟨-, hfl⟩
            cases hp : parseNatDigits (digitChars sid) with
            | none => left; rw [hp] at hfl; simp at hfl; omega
            | some n =>
              cases n with
              | zero => right; rfl
              | succ k => left; rw [hp] at hfl; simp at hfl; omega
          · exact absurd hsty (by simp)

/-- Witness for C2 (amended) at a concrete paragraph: explicit `Heading2`
style, bold 20pt run `Results`, rendered as `## Results`. -/
theorem heading_render_clamp_witness :
    process_paragraph cfgB64 sniffNone 0 [] paraH2 [] = .ok ("## Results", []) := by
  have h := (heading_render_clamp.1 cfgB64 sniffNone 0 [] paraH2 []
    "Results" true (some 40) [] (by rfl) true 2 (by decide)).1 rfl (by decide)
  rw [h.1]
  rfl

/-! ## Presentation path (src/generator/pptx2md.rs)

The ZIP container is external: `run_with_images` receives the `ppt/media/`
table and the slide entries (`ppt/slides/*.xml`, archive enumeration
order). Each slide's XML is modelled at the `quick_xml` interface as the
list of events its reader yields. -/

/-- One result of `element.attributes()`: a decoded key/value pair or an
attribute read error. -/
inductive AttrResult where
  | ok (key value : String)
  | err (msg : String)

/-- One event of the streaming XML reader: start/end tags, unescaped text
(an unescape failure yields the empty string, folded in here), anything
else that the loops ignore, or a reader error; `Event::Eof` is the end of
the list. -/
inductive XmlEvent where
  | start (name : String) (attrs : List AttrResult)
  | endTag (name : String)
  | txt (s : String)
  | other
  | err (msg : String)

/-- Function `extract_text_run`: collect text until the closing `a:t`. -/
def extract_text_run : List XmlEvent → String → Except String (String × List XmlEvent)
  | [], acc => .ok (acc, [])
  | .err m :: _, _ => .error ("Error extracting text run: " ++ m)
  | .txt s :: rest, acc => extract_text_run rest (acc ++ s)
  | .endTag n :: rest, acc =>
    if n = "a:t" then .ok (acc, rest) else extract_text_run rest acc
  | .start _ _ :: rest, acc => extract_text_run rest acc
  | .other :: rest, acc => extract_text_run rest acc

lemma extract_text_run_length :
    ∀ (l : List XmlEvent) (acc r : String) (rest : List XmlEvent),
      extract_text_run l acc = .ok (r, rest) → rest.length ≤ l.length := by
  intro l
  induction l with
  | nil =>
    intro acc r rest h
    simp only [extract_text_run] at h
    cases h
    simp
  | cons e t ih =>
    intro acc r rest h
    cases e with
    | err m =>
      simp only [extract_text_run] at h
      exact Except.noConfusion h
    | txt s =>
      simp only [extract_text_run] at h
      exact le_trans (ih _ _ _ h) (by simp)
    | endTag n =>
      simp only [extract_text_run] at h
      by_cases hn : n = "a:t"
      · rw [if_pos hn] at h
        cases h
        simp
      · rw [if_neg hn] at h
        exact le_trans (ih _ _ _ h) (by simp)
    | start n a =>
      simp only [extract_text_run] at h
      exact le_trans (ih _ _ _ h) (by simp)
    | other =>
      simp only [extract_text_run] at h
      exact le_trans (ih _ _ _ h) (by simp)

/-- Function `is_title_text`: short single-line text without terminal punctuation. -/
def is_title_text (text : String) : Bool :=
  decide (strLen (strTrim text) < 100) && !(strEndsWith (strTrim text) ".")
    && !(strEndsWith (strTrim text) "!") && !(strEndsWith (strTrim text) "?")
    && !(strContainsChar (strTrim text) '\n')

/-- Function `extract_text_body`: accumulate per-paragraph text across `a:t` runs;
each closed `a:p` with non-blank text emits a `### ` title line (when
`is_title_text` accepts it) or a `- ` bullet line; stops at the closing
`p:txBody`. -/
def extract_text_body : List XmlEvent → String → String →
    Except String (String × List XmlEvent)
  | [], text_content, _ => .ok (text_content, [])
  | .err m :: _, _, _ => .error ("Error extracting text body: " ++ m)
  | .start n _ :: rest, text_content, current =>
    if n = "a:t" then
      match _hrun : extract_text_run rest current with
      | .error e => .error e
      | .ok (current', rest') => extract_text_body rest' text_content current'
    else
      extract_text_body rest text_content current
  | .endTag n :: rest, text_content, current =>
    if n = "a:p" then
      if strTrim current ≠ "" then
        extract_text_body rest
          (if is_title_text current then
            text_content ++ "### " ++ strTrim current ++ "\n"
          else
            text_content ++ "- " ++ strTrim current ++ "\n") ""
      else
        extract_text_body rest text_content current
    else if n = "p:txBody" then
      .ok (text_content, rest)
    else
      extract_text_body rest text_content current
  | .txt _ :: rest, tc, cur => extract_text_body rest tc cur
  | .other :: rest, tc, cur => extract_text_body rest tc cur
  termination_by l _ _ => l.length
  decreasing_by
    all_goals simp only [List.length_cons]
    · have := extract_text_run_length _ _ _ _ _hrun
      omega
    all_goals omega

/-- Function `extract_table_cell`: collect text until the closing `a:tc`; the result
is trimmed. -/
def extract_table_cell : List XmlEvent → String → Except String (String × List XmlEvent)
  | [], acc => .ok (strTrim acc, [])
  | .err m :: _, _ => .error ("Error extracting table cell: " ++ m)
  | .txt s :: rest, acc => extract_table_cell rest (acc ++ s)
  | .endTag n :: rest, acc =>
    if n = "a:tc" then .ok (strTrim acc, rest) else extract_table_cell rest acc
  | .start _ _ :: rest, acc => extract_table_cell rest acc
  | .other :: rest, acc => extract_table_cell rest acc

lemma extract_table_cell_length :
    ∀ (l : List XmlEvent) (acc r : String) (rest : List XmlEvent),
      extract_table_cell l acc = .ok (r, rest) → rest.length ≤ l.length := by
  intro l
  induction l with
  | nil =>
    intro acc r rest h
    simp only [extract_table_cell] at h
    cases h
    simp
  | cons e t ih =>
    intro acc r rest h
    cases e with
    | err m =>
      simp only [extract_table_cell] at h
      exact Except.noConfusion h
    | txt s =>
      simp only [extract_table_cell] at h
      exact le_trans (ih _ _ _ h) (by simp)
    | endTag n =>
      simp only [extract_table_cell] at h
      by_cases hn : n = "a:tc"
      · rw [if_pos hn] at h
        cases h
        simp
      · rw [if_neg hn] at h
        exact le_trans (ih _ _ _ h) (by simp)
    | start n a =>
      simp only [extract_table_cell] at h
      exact le_trans (ih _ _ _ h) (by simp)
    | other =>
      simp only [extract_table_cell] at h
      exact le_trans (ih _ _ _ h) (by simp)

/-- A `a:tc` cell is appended to the current (last-started) row; a cell
arriving before any `a:tr` is dropped, since `current_row_index <
table.rows.len()` fails on the initial index 0 with no rows. -/
def appendCellToLastRow : List (List String) → String → List (List String)
  | [], _ => []
  | [r], cell => [r ++ [cell]]
  | r :: rest, cell => r :: appendCellToLastRow rest cell

/-- Function `extract_table`: accumulate rows from `a:tr`/`a:tc` events until the
closing `a:tbl`, then render via `format_table_as_markdown`. -/
def extract_table : List XmlEvent → List (List String) →
    Except String (String × List XmlEvent)
  | [], rows => .ok (format_table_as_markdown rows, [])
  | .err m :: _, _ => .error ("Error extracting table: " ++ m)
  | .start n _ :: rest, rows =>
    if n = "a:tr" then
      extract_table rest (rows ++ [[]])
    else if n = "a:tc" then
      match _hcell : extract_table_cell rest "" with
      | .error e => .error e
      | .ok (cell, rest') => extract_table rest' (appendCellToLastRow rows cell)
    else
      extract_table rest rows
  | .endTag n :: rest, rows =>
    if n = "a:tbl" then .ok (format_table_as_markdown rows, rest)
    else extract_table rest rows
  | .txt _ :: rest, rows => extract_table rest rows
  | .other :: rest, rows => extract_table rest rows
  termination_by l _ => l.length
  decreasing_by
    all_goals simp only [List.length_cons]
    · omega
    · have := extract_table_cell_length _ _ _ _ _hcell
      omega
    all_goals omega

lemma extract_text_body_length :
    ∀ (N : Nat) (l : List XmlEvent), l.length ≤ N →
      ∀ (tc cur r : String) (rest : List XmlEvent),
        extract_text_body l tc cur = .ok (r, rest) → rest.length ≤ l.length := by
  intro N
  induction N with
  | zero =>
    intro l hl tc cur r rest h
    cases l with
    | nil =>
      simp only [extract_text_body] at h
      cases h
      simp
    | cons e t => simp at hl
  | succ k ih =>
    intro l hl tc cur r rest h
    cases l with
    | nil =>
      simp only [extract_text_body] at h
      cases h
      simp
    | cons e t =>
      have ht : t.length ≤ k := by simp at hl; omega
      cases e with
      | err m =>
        simp only [extract_text_body] at h
        exact Except.noConfusion h
      | txt s =>
        simp only [extract_text_body] at h
        exact le_trans (ih t ht _ _ _ _ h) (by simp)
      | other =>
        simp only [extract_text_body] at h
        exact le_trans (ih t ht _ _ _ _ h) (by simp)
      | endTag n =>
        simp only [extract_text_body] at h
        by_cases hp : n = "a:p"
        · rw [if_pos hp] at h
          by_cases hcur : strTrim cur ≠ ""
          · rw [if_pos hcur] at h
            exact le_trans (ih t ht _ _ _ _ h) (by simp)
          · rw [if_neg hcur] at h
            exact le_trans (ih t ht _ _ _ _ h) (by simp)
        · rw [if_neg hp] at h
          by_cases hb : n = "p:txBody"
          · rw [if_pos hb] at h
            cases h
            simp
          · rw [if_neg hb] at h
            exact le_trans (ih t ht _ _ _ _ h) (by simp)
      | start n attrs =>
        simp only [extract_text_body] at h
        by_cases ha : n = "a:t"
        · rw [if_pos ha] at h
          cases hrun : extract_text_run t cur with
          | error e =>
            rw [hrun] at h
            exact Except.noConfusion h
          | ok pr =>
            obtain ⟨cur2, rest2⟩ := pr
            rw [hrun] at h
            have h1 := extract_text_run_length t cur cur2 rest2 hrun
            exact le_trans (ih rest2 (le_trans h1 ht) _ _ _ _ h)
              (le_trans h1 (by simp))
        · rw [if_neg ha] at h
          exact le_trans (ih t ht _ _ _ _ h) (by simp)

/-- Convenient form of `extract_text_body_length`. -/
lemma extract_text_body_rest_le (l : List XmlEvent) (tc cur r : String)
    (rest : List XmlEvent) (h : extract_text_body l tc cur = .ok (r, rest)) :
    rest.length ≤ l.length :=
  extract_text_body_length l.length l (le_refl _) tc cur r rest h

lemma extract_table_length :
    ∀ (N : Nat) (l : List XmlEvent), l.length ≤ N →
      ∀ (rows : List (List String)) (r : String) (rest : List XmlEvent),
        extract_table l rows = .ok (r, rest) → rest.length ≤ l.length := by
  intro N
  induction N with
  | zero =>
    intro l hl rows r rest h
    cases l with
    | nil =>
      simp only [extract_table] at h
      cases h
      simp
    | cons e t => simp at hl
  | succ k ih =>
    intro l hl rows r rest h
    cases l with
    | nil =>
      simp only [extract_table] at h
      cases h
      simp
    | cons e t =>
      have ht : t.length ≤ k := by simp at hl; omega
      cases e with
      | err m =>
        simp only [extract_table] at h
        exact Except.noConfusion h
      | txt s =>
        simp only [extract_table] at h
        exact le_trans (ih t ht _ _ _ h) (by simp)
      | other =>
        simp only [extract_table] at h
        exact le_trans (ih t ht _ _ _ h) (by simp)
      | endTag n =>
        simp only [extract_table] at h
        by_cases hn : n = "a:tbl"
        · rw [if_pos hn] at h
          cases h
          simp
        · rw [if_neg hn] at h
          exact le_trans (ih t ht _ _ _ h) (by simp)
      | start n attrs =>
        simp only [extract_table] at h
        by_cases htr : n = "a:tr"
        · rw [if_pos htr] at h
          exact le_trans (ih t ht _ _ _ h) (by simp)
        · rw [if_neg htr] at h
          by_cases htc : n = "a:tc"
          · rw [if_pos htc] at h
            cases hcell : extract_table_cell t "" with
            | error e =>
              rw [hcell] at h
              exact Except.noConfusion h
            | ok pr =>
              obtain ⟨cell, rest2⟩ := pr
              rw [hcell] at h
              have h1 := extract_table_cell_length t "" cell rest2 hcell
              exact le_trans (ih rest2 (le_trans h1 ht) _ _ _ h)
                (le_trans h1 (by simp))
          · rw [if_neg htc] at h
            exact le_trans (ih t ht _ _ _ h) (by simp)

/-- Convenient form of `extract_table_length`. -/
lemma extract_table_rest_le (l : List XmlEvent) (rows : List (List String))
    (r : String) (rest : List XmlEvent)
    (h : extract_table l rows = .ok (r, rest)) : rest.length ≤ l.length :=
  extract_table_length l.length l (le_refl _) rows r rest h

/-- Function `process_image_element`: scan the element's attributes for `r:embed`;
resolve the first media entry whose name contains the embed id or carries
an allow-listed extension, or emit a named placeholder when nothing
matches. An unreadable attribute is an error. -/
def process_image_element (cfg : Cfg) (sniff : Sniff) (t : Int)
    (attrs : List AttrResult) (images : Images) (fs : FS) :
    Except String (Option String) × FS :=
  match attrs with
  | [] => (.ok none, fs)
  | .err m :: _ => (.error ("Error reading attribute: " ++ m), fs)
  | .ok k v :: rest =>
    if k = "r:embed" then
      match images.find? (fun e => strContainsSub e.1 v || allowedImageEntry e) with
      | some e =>
        match image2md_run cfg sniff t e.2 fs with
        | (.error msg, fs') => (.error msg, fs')
        | (.ok md, fs') => (.ok (some md), fs')
      | none => (.ok (some ("![Image not found](" ++ v ++ ")")), fs)
    else
      process_image_element cfg sniff t rest images fs

/-- Function `parse_slide_content`: the top-level event loop of one slide —
text bodies, tables and image blips are recognised, everything else is
skipped; a reader error fails the slide. -/
def parse_slide_content (cfg : Cfg) (sniff : Sniff) (t : Int) (images : Images) :
    List XmlEvent → String → FS → Except String (String × FS)
  | [], md, fs => .ok (md, fs)
  | .err m :: _, _, _ => .error ("Error parsing slide XML: " ++ m)
  | .start n attrs :: rest, md, fs =>
    if n = "p:txBody" then
      match _hbody : extract_text_body rest "" "" with
      | .error e => .error e
      | .ok (txt, rest') =>
        parse_slide_content cfg sniff t images rest'
          (if strTrim txt ≠ "" then md ++ txt ++ "\n\n" else md) fs
    else if n = "a:tbl" then
      match _htbl : extract_table rest [] with
      | .error e => .error e
      | .ok (tmd, rest') =>
        parse_slide_content cfg sniff t images rest' (md ++ tmd ++ "\n") fs
    else if n = "a:blip" then
      match process_image_element cfg sniff t attrs images fs with
      | (.error e, _) => .error e
      | (.ok (some imd), fs') =>
        parse_slide_content cfg sniff t images rest (md ++ imd ++ "\n\n") fs'
      | (.ok none, fs') => parse_slide_content cfg sniff t images rest md fs'
    else
      parse_slide_content cfg sniff t images rest md fs
  | .endTag _ :: rest, md, fs => parse_slide_content cfg sniff t images rest md fs
  | .txt _ :: rest, md, fs => parse_slide_content cfg sniff t images rest md fs
  | .other :: rest, md, fs => parse_slide_content cfg sniff t images rest md fs
  termination_by l _ _ => l.length
  decreasing_by
    all_goals simp only [List.length_cons]
    · have := extract_text_body_rest_le _ _ _ _ _ _hbody
      omega
    · have := extract_table_rest_le _ _ _ _ _htbl
      omega
    all_goals omega

/-- The slide loop of pptx `run_with_images`: each filtered
`ppt/slides/*.xml` entry is framed with a `## Slide N` heading (numbering
follows archive enumeration order) and a trailing horizontal rule; a slide
parse failure propagates and aborts the whole conversion (the `?`
operator). -/
def pptx_slides_loop (cfg : Cfg) (sniff : Sniff) (t : Int) (images : Images) :
    List (List XmlEvent) → Nat → String → FS → Except String (String × FS)
  | [], _, md, fs => .ok (md, fs)
  | s :: rest, n, md, fs =>
    match parse_slide_content cfg sniff t images s "" fs with
    | .error e => .error e
    | .ok (smd, fs') =>
      pptx_slides_loop cfg sniff t images rest (n + 1)
        (md ++ "## Slide " ++ toString n ++ "\n\n" ++ smd ++ "\n\n---\n\n") fs'

/-- pptx `run_with_images`, after container unpacking: the output starts
from the synthetic `# PowerPoint Presentation` heading and accumulates the
slides. -/
def pptx_run_with_images (cfg : Cfg) (sniff : Sniff) (t : Int)
    (slides : List (List XmlEvent)) (images : Images) (fs : FS) :
    Except String (String × FS) :=
  pptx_slides_loop cfg sniff t images slides 1 "# PowerPoint Presentation\n\n" fs

/-! ## C5: a slide parse failure aborts the whole conversion (corrected) -/

/-- Fixture: a well-formed slide holding one image blip whose embed id
matches no media entry (it renders as a placeholder image line). -/
def blipSlide : List XmlEvent := [.start "a:blip" [.ok "r:embed" "rId1"]]

/-- Fixture: a slide whose reader fails immediately (malformed XML /
unexpected EOF surface this way at the `quick_xml` interface). -/
def badSlide : List XmlEvent := [.err "boom"]

/-- Counterexample to C5 as stated: in a presentation whose first slide is
well-formed (and on its own converts to a placeholder image line) and whose
second slide fails to parse, the whole conversion returns the slide-parse
error — the well-formed slide does not appear in any output. -/
theorem slide_error_aborts_counterexample :
    parse_slide_content cfgB64 sniffNone 0 [] blipSlide "" []
      = .ok ("![Image not found](rId1)\n\n", [])
    ∧ parse_slide_content cfgB64 sniffNone 0 [] badSlide "" []
      = .error "Error parsing slide XML: boom"
    ∧ pptx_run_with_images cfgB64 sniffNone 0 [blipSlide, badSlide] [] []
      = .error "Error parsing slide XML: boom" := by
  refine ⟨?_, ?_, ?_⟩
  · simp [parse_slide_content, blipSlide, process_image_element]
  · simp [parse_slide_content, badSlide]
  · simp [pptx_run_with_images, pptx_slides_loop, parse_slide_content,
      blipSlide, badSlide, process_image_element]

/-- C5 as amended: a parse failure inside any single slide aborts the whole
presentation conversion — whenever some slide's events make
`parse_slide_content` fail (whatever the filesystem state), the slide loop
returns an error, so no slide appears in any output. -/
theorem slide_parse_error_aborts (cfg : Cfg) (sniff : Sniff) (t : Int)
    (images : Images) :
    ∀ (slides : List (List XmlEvent)) (n : Nat) (md : String) (fs : FS),
      (∃ s ∈ slides, ∀ fs0 : FS, ∃ e,
        parse_slide_content cfg sniff t images s "" fs0 = .error e) →
      (∃ e, pptx_slides_loop cfg sniff t images slides n md fs = .error e)
        ∧ (∃ e, pptx_run_with_images cfg sniff t slides images fs = .error e) := by
  have main : ∀ (slides : List (List XmlEvent)) (n : Nat) (md : String) (fs : FS),
      (∃ s ∈ slides, ∀ fs0 : FS, ∃ e,
        parse_slide_content cfg sniff t images s "" fs0 = .error e) →
      ∃ e, pptx_slides_loop cfg sniff t images slides n md fs = .error e := by
    intro slides
    induction slides with
    | nil =>
      intro n md fs hex
      obtain ⟨s, hs, -⟩ := hex
      exact absurd hs (List.not_mem_nil s)
    | cons hd tl ih =>
      intro n md fs hex
      obtain ⟨s, hs, hfail⟩ := hex
      rcases List.mem_cons.mp hs with rfl | hmem
      · obtain ⟨e, he⟩ := hfail fs
        exact ⟨e, by simp only [pptx_slides_loop, he]⟩
      · cases hp : parse_slide_content cfg sniff t images hd "" fs with
        | error e => exact ⟨e, by simp only [pptx_slides_loop, hp]⟩
        | ok pr =>
          obtain ⟨smd, fs'⟩ := pr
          obtain ⟨e, he⟩ := ih (n + 1)
            (md ++ "## Slide " ++ toString n ++ "\n\n" ++ smd ++ "\n\n---\n\n")
            fs' ⟨s, hmem, hfail⟩
          exact ⟨e, by simp only [pptx_slides_loop, hp]; exact he⟩
  intro slides n md fs hex
  exact ⟨main slides n md fs hex, main slides 1 "# PowerPoint Presentation\n\n" fs hex⟩

/-- Witness for C5 (amended): a one-slide presentation whose slide is
`badSlide` fails as a whole. -/
theorem slide_parse_error_aborts_witness :
    ∃ e, pptx_run_with_images cfgB64 sniffNone 0 [badSlide] [] [] = .error e := by
  exact (slide_parse_error_aborts cfgB64 sniffNone 0 [] [badSlide] 1 "" []
    ⟨badSlide, by simp, fun fs0 => ⟨"Error parsing slide XML: boom",
      by simp [parse_slide_content, badSlide]⟩⟩).2

/-! ## C9: synthetic titles head every successful output -/

lemma docx_body_keeps_acc (cfg : Cfg) (sniff : Sniff) (t : Int)
    (images : Images) :
    ∀ (l : List BodyContent) (acc : String) (fs : FS) (s : String) (fs' : FS),
      docx_body cfg sniff t images l acc fs = .ok (s, fs') →
      ∃ r, s = acc ++ r := by
  intro l
  induction l with
  | nil =>
    intro acc fs s fs' h
    simp only [docx_body] at h
    cases h
    exact ⟨"", by simp⟩
  | cons hd tl ih =>
    intro acc fs s fs' h
    cases hd with
    | paragraph p =>
      simp only [docx_body] at h
      cases hp : process_paragraph cfg sniff t images p fs with
      | error e =>
        rw [hp] at h
        exact Except.noConfusion h
      | ok pr =>
        obtain ⟨pmd, fs2⟩ := pr
        rw [hp] at h
        dsimp only at h
        by_cases hpe : strTrim pmd = ""
        · rw [if_pos hpe] at h
          exact ih _ _ _ _ h
        · rw [if_neg hpe] at h
          obtain ⟨r, hr⟩ := ih _ _ _ _ h
          exact ⟨pmd ++ "\n\n" ++ r, by rw [hr]; simp [String.append_assoc]⟩
    | table tb =>
      simp only [docx_body] at h
      cases hp : process_table tb with
      | error e =>
        rw [hp] at h
        exact Except.noConfusion h
      | ok tmd =>
        rw [hp] at h
        dsimp only at h
        by_cases hpe : strTrim tmd = ""
        · rw [if_pos hpe] at h
          exact ih _ _ _ _ h
        · rw [if_neg hpe] at h
          obtain ⟨r, hr⟩ := ih _ _ _ _ h
          exact ⟨tmd ++ "\n\n" ++ r, by rw [hr]; simp [String.append_assoc]⟩
    | other =>
      simp only [docx_body] at h
      exact ih _ _ _ _ h

lemma pptx_loop_keeps_acc (cfg : Cfg) (sniff : Sniff) (t : Int)
    (images : Images) :
    ∀ (slides : List (List XmlEvent)) (n : Nat) (md : String) (fs : FS)
      (s : String) (fs' : FS),
      pptx_slides_loop cfg sniff t images slides n md fs = .ok (s, fs') →
      ∃ r, s = md ++ r := by
  intro slides
  induction slides with
  | nil =>
    intro n md fs s fs' h
    simp only [pptx_slides_loop] at h
    cases h
    exact ⟨"", by simp⟩
  | cons hd tl ih =>
    intro n md fs s fs' h
    simp only [pptx_slides_loop] at h
    cases hp : parse_slide_content cfg sniff t images hd "" fs with
    | error e =>
      rw [hp] at h
      exact Except.noConfusion h
    | ok pr =>
      obtain ⟨smd, fs2⟩ := pr
      rw [hp] at h
      dsimp only at h
      obtain ⟨r, hr⟩ := ih _ _ _ _ _ h
      exact ⟨"## Slide " ++ toString n ++ "\n\n" ++ smd ++ "\n\n---\n\n" ++ r,
        by rw [hr]; simp [String.append_assoc]⟩

/-- C9: every successful word-processing conversion (non-pandoc path)
starts with `# Document` followed by a blank line, and every successful
presentation conversion starts with `# PowerPoint Presentation` followed by
a blank line, before any content derived from the input. -/
theorem outputs_start_with_synthetic_title :
    (∀ (cfg : Cfg) (sniff : Sniff) (t : Int) (contents : List BodyContent)
        (images : Images) (fs : FS) (s : String) (fs' : FS),
      docx_run_with_images cfg sniff t contents images fs = .ok (s, fs') →
      ∃ r, s = "# Document\n\n" ++ r)
    ∧ (∀ (cfg : Cfg) (sniff : Sniff) (t : Int) (slides : List (List XmlEvent))
        (images : Images) (fs : FS) (s : String) (fs' : FS),
      pptx_run_with_images cfg sniff t slides images fs = .ok (s, fs') →
      ∃ r, s = "# PowerPoint Presentation\n\n" ++ r) := by
  constructor
  · intro cfg sniff t contents images fs s fs' h
    exact docx_body_keeps_acc cfg sniff t images contents _ _ _ _ h
  · intro cfg sniff t slides images fs s fs' h
    exact pptx_loop_keeps_acc cfg sniff t images slides _ _ _ _ _ h

/-- Witness for C9 at concrete inputs: the empty document body and the
empty slide list convert to exactly their synthetic titles. -/
theorem outputs_start_with_synthetic_title_witness :
    (∃ r, ("# Document\n\n" : String) = "# Document\n\n" ++ r)
    ∧ (∃ r, ("# PowerPoint Presentation\n\n" : String)
        = "# PowerPoint Presentation\n\n" ++ r) :=
  ⟨outputs_start_with_synthetic_title.1 cfgB64 sniffNone 0 [] [] []
      "# Document\n\n" [] rfl,
    outputs_start_with_synthetic_title.2 cfgB64 sniffNone 0 [] [] []
      "# PowerPoint Presentation\n\n" [] rfl⟩

/-! ## C6: determinism of repeated conversion (corrected)

The timestamp enters the embedding as the explicit parameter `t`, and the
media table's enumeration order as the order of the `Images` list — in the
source it is the iteration order of a freshly built Rust `HashMap`, which
is arbitrary and may differ between two conversions of the same bytes. -/

lemma process_drawing_cong (cfg : Cfg) (sniff : Sniff) (t : Int)
    (i1 i2 : Images) (fs : FS)
    (hf : i1.find? allowedImageEntry = i2.find? allowedImageEntry) :
    process_drawing_images_with_mode cfg sniff t i1 fs
      = process_drawing_images_with_mode cfg sniff t i2 fs := by
  unfold process_drawing_images_with_mode
  rw [hf]

lemma scan_run_cong (cfg : Cfg) (sniff : Sniff) (t : Int) (i1 i2 : Images)
    (hf : i1.find? allowedImageEntry = i2.find? allowedImageEntry) :
    ∀ (l : List DocRunContent) (txt : String) (fs : FS),
      scan_run_contents cfg sniff t i1 l txt fs
        = scan_run_contents cfg sniff t i2 l txt fs := by
  intro l
  induction l with
  | nil => intro txt fs; rfl
  | cons hd tl ih =>
    intro txt fs
    cases hd with
    | text s =>
      simp only [scan_run_contents]
      exact ih _ _
    | other =>
      simp only [scan_run_contents]
      exact ih _ _
    | drawing =>
      simp only [scan_run_contents]
      rw [process_drawing_cong cfg sniff t i1 i2 fs hf]
      rcases process_drawing_images_with_mode cfg sniff t i2 fs with ⟨res, fs'⟩
      cases res with
      | error e => rfl
      | ok md =>
        cases md with
        | none => exact ih _ _
        | some s => exact ih _ _

lemma scan_para_cong (cfg : Cfg) (sniff : Sniff) (t : Int) (i1 i2 : Images)
    (hf : i1.find? allowedImageEntry = i2.find? allowedImageEntry) :
    ∀ (l : List DocParaContent) (st : String × Bool × Option Nat × FS),
      scan_para_contents cfg sniff t i1 l st
        = scan_para_contents cfg sniff t i2 l st := by
  intro l
  induction l with
  | nil => intro st; rfl
  | cons hd tl ih =>
    intro st
    obtain ⟨txt, hb, fsz, fs⟩ := st
    cases hd with
    | other =>
      simp only [scan_para_contents]
      exact ih _
    | run r =>
      simp only [scan_para_contents, scan_run_cong cfg sniff t i1 i2 hf]
      rcases scan_run_contents cfg sniff t i2 r.content txt fs with e | ⟨txt', fs'⟩
      · rfl
      · exact ih _

lemma process_paragraph_cong (cfg : Cfg) (sniff : Sniff) (t : Int)
    (i1 i2 : Images) (p : DocParagraph) (fs : FS)
    (hf : i1.find? allowedImageEntry = i2.find? allowedImageEntry) :
    process_paragraph cfg sniff t i1 p fs = process_paragraph cfg sniff t i2 p fs := by
  unfold process_paragraph
  rw [scan_para_cong cfg sniff t i1 i2 hf]

lemma docx_body_cong (cfg : Cfg) (sniff : Sniff) (t : Int) (i1 i2 : Images)
    (hf : i1.find? allowedImageEntry = i2.find? allowedImageEntry) :
    ∀ (l : List BodyContent) (md : String) (fs : FS),
      docx_body cfg sniff t i1 l md fs = docx_body cfg sniff t i2 l md fs := by
  intro l
  induction l with
  | nil => intro md fs; rfl
  | cons hd tl ih =>
    intro md fs
    cases hd with
    | paragraph p =>
      simp only [docx_body, process_paragraph_cong cfg sniff t i1 i2 p fs hf]
      rcases process_paragraph cfg sniff t i2 p fs with e | ⟨pmd, fs'⟩
      · rfl
      · exact ih _ _
    | table tb =>
      simp only [docx_body]
      rcases process_table tb with e | tmd
      · rfl
      · exact ih _ _
    | other =>
      simp only [docx_body]
      exact ih _ _

lemma find?_eq_filter_head {α : Type} (p : α → Bool) :
    ∀ l : List α, l.find? p = (l.filter p).head? := by
  intro l
  induction l with
  | nil => rfl
  | cons hd tl ih =>
    by_cases hp : p hd = true
    · rw [List.find?_cons_of_pos _ hp, List.filter_cons_of_pos hp]
      rfl
    · rw [List.find?_cons_of_neg _ hp, List.filter_cons_of_neg hp, ih]

lemma perm_eq_of_short {α : Type} (l1 l2 : List α) (h : l1.Perm l2)
    (hlen : l2.length ≤ 1) : l1 = l2 := by
  match l2, hlen with
  | [], _ => exact h.eq_nil
  | [a], _ => exact List.perm_singleton.mp h
  | a :: b :: t, hlen => simp at hlen

lemma find?_eq_of_perm_short {α : Type} (p : α → Bool) (i1 i2 : List α)
    (hperm : i2.Perm i1) (hshort : (i1.filter p).length ≤ 1) :
    i2.find? p = i1.find? p := by
  rw [find?_eq_filter_head, find?_eq_filter_head]
  rw [perm_eq_of_short (i2.filter p) (i1.filter p) (hperm.filter p) hshort]

/-- Fixture: a paragraph consisting of one drawing run. -/
def drawPara : DocParagraph := ⟨none, [.run ⟨none, [.drawing]⟩]⟩

/-- Fixture: a media table with two allow-listed images. -/
def imgsTwo : Images :=
  [("word/media/image1.png", [1]), ("word/media/image2.png", [2])]

lemma process_image_element_cong (cfg : Cfg) (sniff : Sniff) (t : Int)
    (i1 i2 : Images) (fs : FS)
    (hf : ∀ v : String,
      i1.find? (fun e => strContainsSub e.1 v || allowedImageEntry e)
        = i2.find? (fun e => strContainsSub e.1 v || allowedImageEntry e)) :
    ∀ attrs : List AttrResult,
      process_image_element cfg sniff t attrs i1 fs
        = process_image_element cfg sniff t attrs i2 fs := by
  intro attrs
  induction attrs with
  | nil => rfl
  | cons hd tl ih =>
    cases hd with
    | err m => rfl
    | ok k v =>
      simp only [process_image_element]
      split
      · rw [hf v]
      · exact ih

lemma parse_slide_cong (cfg : Cfg) (sniff : Sniff) (t : Int) (i1 i2 : Images)
    (hf : ∀ v : String,
      i1.find? (fun e => strContainsSub e.1 v || allowedImageEntry e)
        = i2.find? (fun e => strContainsSub e.1 v || allowedImageEntry e)) :
    ∀ (N : Nat) (l : List XmlEvent), l.length ≤ N → ∀ (md : String) (fs : FS),
      parse_slide_content cfg sniff t i1 l md fs
        = parse_slide_content cfg sniff t i2 l md fs := by
  intro N
  induction N with
  | zero =>
    intro l hl md fs
    cases l with
    | nil => simp only [parse_slide_content]
    | cons e rest => simp at hl
  | succ k ih =>
    intro l hl md fs
    cases l with
    | nil => simp only [parse_slide_content]
    | cons ev rest =>
      have hr : rest.length ≤ k := by simp at hl; omega
      cases ev with
      | err m => simp only [parse_slide_content]
      | endTag n =>
        simp only [parse_slide_content]
        exact ih rest hr _ _
      | txt s =>
        simp only [parse_slide_content]
        exact ih rest hr _ _
      | other =>
        simp only [parse_slide_content]
        exact ih rest hr _ _
      | start n attrs =>
        simp only [parse_slide_content]
        split
        · split
          · rfl
          · rename_i txt rest2 heq
            exact ih rest2 (le_trans (extract_text_body_rest_le _ _ _ _ _ heq) hr) _ _
        · split
          · split
            · rfl
            · rename_i tmd rest2 heq
              exact ih rest2 (le_trans (extract_table_rest_le _ _ _ _ heq) hr) _ _
          · split
            · rw [process_image_element_cong cfg sniff t i1 i2 fs hf attrs]
              split
              · rfl
              · exact ih rest hr _ _
              · exact ih rest hr _ _
            · exact ih rest hr _ _

lemma pptx_loop_cong (cfg : Cfg) (sniff : Sniff) (t : Int) (i1 i2 : Images)
    (hf : ∀ v : String,
      i1.find? (fun e => strContainsSub e.1 v || allowedImageEntry e)
        = i2.find? (fun e => strContainsSub e.1 v || allowedImageEntry e)) :
    ∀ (slides : List (List XmlEvent)) (n : Nat) (md : String) (fs : FS),
      pptx_slides_loop cfg sniff t i1 slides n md fs
        = pptx_slides_loop cfg sniff t i2 slides n md fs := by
  intro slides
  induction slides with
  | nil => intro n md fs; rfl
  | cons hd tl ih =>
    intro n md fs
    simp only [pptx_slides_loop]
    rw [parse_slide_cong cfg sniff t i1 i2 hf hd.length hd (le_refl _) "" fs]
    rcases parse_slide_content cfg sniff t i2 hd "" fs with e | ⟨smd, fs2⟩
    · rfl
    · exact ih _ _ _

/-- C6 as amended: with timestamp naming, two conversions of the same
parsed input and the same timestamp produce identical Markdown whenever
their media-table enumeration orders agree on every image lookup the
conversion performs. For the word-processing path that lookup is the first
entry with an allow-listed extension, so any two orders agreeing on it give
equal output — guaranteed for every permutation when at most one media
entry is allow-listed. For the presentation path the lookup also matches
file names containing the blip's embed id, so the orders must agree on the
first such entry for every embed id — guaranteed for every permutation when
the media table has at most one entry. (With several candidate entries two
runs may select different images while the generated names coincide: see
the counterexample and `pptx_embed_containment_differs`.) -/
theorem timestamp_conversion_deterministic :
    (∀ (cfg : Cfg) (sniff : Sniff) (t : Int) (contents : List BodyContent)
        (i1 i2 : Images) (fs : FS),
      i1.find? allowedImageEntry = i2.find? allowedImageEntry →
      docx_run_with_images cfg sniff t contents i1 fs
        = docx_run_with_images cfg sniff t contents i2 fs)
    ∧ (∀ (cfg : Cfg) (sniff : Sniff) (t : Int) (contents : List BodyContent)
        (i1 i2 : Images) (fs : FS),
      i2.Perm i1 → (i1.filter allowedImageEntry).length ≤ 1 →
      docx_run_with_images cfg sniff t contents i2 fs
        = docx_run_with_images cfg sniff t contents i1 fs)
    ∧ (∀ (cfg : Cfg) (sniff : Sniff) (t : Int) (slides : List (List XmlEvent))
        (i1 i2 : Images) (fs : FS),
      (∀ v : String,
        i1.find? (fun e => strContainsSub e.1 v || allowedImageEntry e)
          = i2.find? (fun e => strContainsSub e.1 v || allowedImageEntry e)) →
      pptx_run_with_images cfg sniff t slides i1 fs
        = pptx_run_with_images cfg sniff t slides i2 fs)
    ∧ (∀ (cfg : Cfg) (sniff : Sniff) (t : Int) (slides : List (List XmlEvent))
        (i1 i2 : Images) (fs : FS),
      i2.Perm i1 → i1.length ≤ 1 →
      pptx_run_with_images cfg sniff t slides i2 fs
        = pptx_run_with_images cfg sniff t slides i1 fs) := by
  refine ⟨?_, ?_, ?_, ?_⟩
  · intro cfg sniff t contents i1 i2 fs hfind
    unfold docx_run_with_images
    exact docx_body_cong cfg sniff t i1 i2 hfind contents _ fs
  · intro cfg sniff t contents i1 i2 fs hperm hshort
    unfold docx_run_with_images
    exact docx_body_cong cfg sniff t i2 i1
      (find?_eq_of_perm_short allowedImageEntry i1 i2 hperm hshort) contents _ fs
  · intro cfg sniff t slides i1 i2 fs hf
    unfold pptx_run_with_images
    exact pptx_loop_cong cfg sniff t i1 i2 hf slides 1 _ fs
  · intro cfg sniff t slides i1 i2 fs hperm hlen
    rw [perm_eq_of_short i2 i1 hperm hlen]

/-- Witness for C6 (amended) on both paths: a docx media table whose only
allow-listed image is accompanied by a non-image entry, and a pptx media
table with a single entry — in both cases the reversed enumeration order
produces the identical output. -/
theorem timestamp_conversion_deterministic_witness :
    docx_run_with_images cfgB64 sniffNone 0 [.paragraph drawPara]
        [("word/media/thumb.db", [9]), ("word/media/image1.png", [1])].reverse []
      = docx_run_with_images cfgB64 sniffNone 0 [.paragraph drawPara]
        [("word/media/thumb.db", [9]), ("word/media/image1.png", [1])] []
    ∧ pptx_run_with_images cfgB64 sniffNone 0 [blipSlide]
        [("ppt/media/img.png", [1])].reverse []
      = pptx_run_with_images cfgB64 sniffNone 0 [blipSlide]
        [("ppt/media/img.png", [1])] [] :=
  ⟨timestamp_conversion_deterministic.2.1 cfgB64 sniffNone 0 [.paragraph drawPara]
      [("word/media/thumb.db", [9]), ("word/media/image1.png", [1])]
      [("word/media/thumb.db", [9]), ("word/media/image1.png", [1])].reverse []
      (List.reverse_perm _) (by decide),
    timestamp_conversion_deterministic.2.2.2 cfgB64 sniffNone 0 [blipSlide]
      [("ppt/media/img.png", [1])]
      [("ppt/media/img.png", [1])].reverse []
      (List.reverse_perm _) (by decide)⟩

/-- Counterexample to C6 as stated: the same document and media set,
converted twice at the same timestamp (so the generated image names are
equal, both `pic-0`), under two admissible hash-map enumeration orders:
the two runs select different embedded images and the outputs differ in
the embedded payload, not in any generated name. -/
theorem media_order_counterexample :
    imgsTwo.reverse.Perm imgsTwo
    ∧ docx_run_with_images cfgB64 sniffNone 0 [.paragraph drawPara] imgsTwo []
        = .ok ("# Document\n\n\n\n![pic-0](data:image/jpeg;base64,AQ==)\n\n\n\n", [])
    ∧ docx_run_with_images cfgB64 sniffNone 0 [.paragraph drawPara]
          imgsTwo.reverse []
        = .ok ("# Document\n\n\n\n![pic-0](data:image/jpeg;base64,Ag==)\n\n\n\n", [])
    ∧ ("# Document\n\n\n\n![pic-0](data:image/jpeg;base64,AQ==)\n\n\n\n" : String)
        ≠ "# Document\n\n\n\n![pic-0](data:image/jpeg;base64,Ag==)\n\n\n\n" := by
  exact ⟨List.reverse_perm imgsTwo, by rfl, by rfl, by decide⟩

/-- Fixture: a pptx media table whose non-image entry's name contains the
embed id `rId1` and whose only allow-listed entry is an image. -/
def pptxImgs : Images := [("ppt/media/rId1.bin", [9]), ("ppt/media/img.png", [1])]

/-- In the presentation path the selection predicate also matches file
names containing the embed id, so agreeing on the allow-listed images is
not enough there: these two enumeration orders agree on the unique
allow-listed entry, yet they resolve the same blip to different images
(payloads `CQ==` and `AQ==`) — which is why the amended C6 conditions the
presentation path on every embed-id lookup, not on the allow-list alone. -/
lemma pptx_embed_containment_differs :
    pptxImgs.find? allowedImageEntry = pptxImgs.reverse.find? allowedImageEntry
    ∧ pptx_run_with_images cfgB64 sniffNone 0 [blipSlide] pptxImgs []
        = .ok ("# PowerPoint Presentation\n\n## Slide 1\n\n![pic-0](data:image/jpeg;base64,CQ==)\n\n\n\n---\n\n", [])
    ∧ pptx_run_with_images cfgB64 sniffNone 0 [blipSlide] pptxImgs.reverse []
        = .ok ("# PowerPoint Presentation\n\n## Slide 1\n\n![pic-0](data:image/jpeg;base64,AQ==)\n\n\n\n---\n\n", []) := by
  refine ⟨by decide, ?_, ?_⟩
  · simp [pptx_run_with_images, pptx_slides_loop, parse_slide_content, blipSlide,
      process_image_element, pptxImgs]
    rfl
  · simp [pptx_run_with_images, pptx_slides_loop, parse_slide_content, blipSlide,
      process_image_element, pptxImgs]
    rfl

/-! ## Format dispatcher (src/lib.rs) -/

/-- Rust `Path::file_name` over Unix separators: the last path component,
skipping empty and `.` components; `..` has no file name. -/
def fileNameOf (p : String) : Option String :=
  match ((p.toList.splitOn '/').filter
      (fun c => ¬ c = [] ∧ ¬ c = ['.'])).getLast? with
  | none => none
  | some last => if last = ['.', '.'] then none else some (String.mk last)

/-- Rust `Path::extension`: the part of the file name after the last `.`,
absent when there is no `.` or when the name is a bare dotfile such as
`.pptx`. -/
def extensionOf (p : String) : Option String :=
  match fileNameOf p with
  | none => none
  | some name =>
    if name.toList.contains '.'
        ∧ (name.toList.reverse.takeWhile (fun c => ¬ c = '.')).length + 2
            ≤ name.toList.length then
      some (String.mk (name.toList.reverse.takeWhile (fun c => ¬ c = '.')).reverse)
    else
      none

/-- Function `get_file_type_from_extension` from src/lib.rs: the fixed
extension-to-MIME table. -/
def get_file_type_from_extension (path? : Option String) : Option String :=
  match path? with
  | none => none
  | some p =>
    match extensionOf p with
    | none => none
    | some ext =>
      if strLower ext = "docx" then
        some "application/vnd.openxmlformats-officedocument.wordprocessingml.document"
      else if strLower ext = "xlsx" then
        some "application/vnd.openxmlformats-officedocument.spreadsheetml.sheet"
      else if strLower ext = "pptx" then
        some "application/vnd.openxmlformats-officedocument.presentationml.presentation"
      else if strLower ext = "csv" then some "text/csv"
      else if strLower ext = "wav" then some "audio/wav"
      else if strLower ext = "jpg" ∨ strLower ext = "jpeg" then some "image/jpeg"
      else if strLower ext = "png" then some "image/png"
      else if strLower ext = "gif" then some "image/gif"
      else if strLower ext = "html" ∨ strLower ext = "htm" then some "text/html"
      else none

/-- The route `convert` takes for a resolved MIME type. -/
inductive Route where
  | wav
  | docx
  | image
  | pptx
  | xlsx
  | csv
  | html
  | unsupported (mime : String)
  deriving DecidableEq

/-- The MIME fallback step of `convert`: a generic ZIP or plain-text sniff
result defers to the extension table when the caller supplied a path that
resolves there. -/
def resolve_mime (sniffed : String) (path? : Option String) : String :=
  if sniffed = "application/zip" ∨ sniffed = "text/plain" then
    match get_file_type_from_extension path? with
    | some m => m
    | none => sniffed
  else sniffed

/-- The route match of `convert` over the final MIME type. -/
def route_of (m : String) : Route :=
  if m = "audio/x-wav" ∨ m = "audio/wav" ∨ m = "audio/wave" then .wav
  else if m = "application/vnd.openxmlformats-officedocument.wordprocessingml.document" then .docx
  else if m = "image/jpeg" ∨ m = "image/png" ∨ m = "image/gif" then .image
  else if m = "application/vnd.openxmlformats-officedocument.presentationml.presentation" then .pptx
  else if m = "application/vnd.openxmlformats-officedocument.spreadsheetml.sheet" then .xlsx
  else if m = "text/csv" ∨ m = "application/csv" then .csv
  else if m = "text/html" then .html
  else .unsupported m

/-- The dispatch of `convert` after `infer::get` succeeded with `sniffed`
(a `none` sniff result errors before this point). -/
def dispatch (sniffed : String) (path? : Option String) : Route :=
  route_of (resolve_mime sniffed path?)

/-- C7 as amended: a generic ZIP or plain-text sniff always defers to the
extension-derived MIME type when one exists (keeping the sniffed type
otherwise), and a ZIP-sniffed buffer whose path carries a real `pptx`
extension — a file name with a non-empty stem ending in `.pptx`, in any
letter case — routes to the presentation extractor. -/
theorem zip_fallback_routes_by_extension :
    (∀ (sniffed : String) (p? : Option String),
      (sniffed = "application/zip" ∨ sniffed = "text/plain") →
      resolve_mime sniffed p? = (get_file_type_from_extension p?).getD sniffed)
    ∧ (∀ (p : String) (ext : String),
      extensionOf p = some ext → strLower ext = "pptx" →
      dispatch "application/zip" (some p) = Route.pptx) := by
  constructor
  · intro sniffed p? h
    unfold resolve_mime
    rw [if_pos h]
    cases get_file_type_from_extension p? <;> rfl
  · intro p ext hext hlow
    unfold dispatch resolve_mime
    rw [if_pos (Or.inl rfl)]
    unfold get_file_type_from_extension
    dsimp only
    rw [hext]
    dsimp only
    rw [hlow]
    rfl

/-- Witness for C7 (amended) at the concrete path `slides/deck.pptx`. -/
theorem zip_fallback_routes_by_extension_witness :
    dispatch "application/zip" (some "slides/deck.pptx") = Route.pptx :=
  zip_fallback_routes_by_extension.2 "slides/deck.pptx" "pptx" (by rfl) (by rfl)

/-- Counterexample to C7 as stated: the path `.pptx` ends in `.pptx`, yet
as a bare dotfile it has no extension, so the fallback finds no MIME
mapping and the ZIP-sniffed buffer is dispatched to the unsupported-format
error, not to the presentation extractor. -/
theorem zip_fallback_dotfile_counterexample :
    strEndsWith ".pptx" ".pptx" = true
    ∧ extensionOf ".pptx" = none
    ∧ dispatch "application/zip" (some ".pptx")
        = Route.unsupported "application/zip"
    ∧ Route.unsupported "application/zip" ≠ Route.pptx := by
  exact ⟨by decide, by rfl, by rfl, by decide⟩

end Makritup
